import Mathlib

/-!
Shallow embedding of `src/model/train.py` (adversarial-patch training loop
for a YOLOv8n classifier), together with proofs of the specified properties.

Modelling conventions:
* A patch tensor is a flat list of rational pixel values (`Patch := List ℚ`).
* The frozen recognition model, the geometric patch transforms and the random
  draws made for one image are bundled into an abstract per-sample context of
  type `ι`, and an abstract function `modelLP : ι → Patch → List ℚ` giving the
  log-probability row the model produces for the image of that context with
  the given patch pasted in (lines 26-37 of `train.py`).
* The optimizer is an abstract patch update `Option (ι → Patch → Patch)`
  (`None` in validation mode), applied when present (lines 42-45).
* Python float division raises `ZeroDivisionError` on a zero denominator, so
  the functions performing the `/= batch_size` and `/= len(loader)` averaging
  return `Option`, with `none` for the error case.
* For the outer loop, tensor identity matters (`clone().detach()` versus
  in-place `.data` assignment), so the loop state carries explicit tensor
  identifiers next to the values, with a fresh-id counter.
-/

namespace AdvPatch

-- `ι` is a sample context: one image together with the random transform and
-- random placement drawn for it in that iteration.
variable {ι : Type}

/-- A patch tensor's values: a flat list of rational pixel values. -/
abbrev Patch := List ℚ

/-- `torch.clamp(patch, -1, 1)` applied elementwise (train.py line 49). -/
def clampPatch (p : Patch) : Patch :=
  p.map (fun v => min (max v (-1)) 1)

/-- Auxiliary scan for `torch.argmax` over one row: current index `i`,
best index `bi`, best value `bv`; a later value replaces the best only when
strictly greater, giving the first-maximum convention. -/
def argmaxAux : List ℚ → ℕ → ℕ → ℚ → ℕ
  | [], _, bi, _ => bi
  | v :: rest, i, bi, bv =>
    if bv < v then argmaxAux rest (i + 1) i v
    else argmaxAux rest (i + 1) bi bv

/-- `torch.argmax` over one row of the result tensor: index of the first
maximal entry (0 on an empty row). -/
def argmaxList : List ℚ → ℕ
  | [] => 0
  | v :: rest => argmaxAux rest 1 0 v

/-- `calculate_success` (train.py lines 9-13): per-row argmax, compare with
the target class, take the mean of the 0/1 indicators.  On an empty batch
`torch.mean` yields NaN; here the junk value is `0` (claims about the result
assume a non-empty batch). -/
def calculate_success (result : List (List ℚ)) (target_class : ℕ) : ℚ :=
  let top1 := result.map argmaxList
  let indicators := top1.map (fun c => if c = target_class then (1 : ℚ) else 0)
  indicators.sum / result.length

/-- `torch.nn.functional.nll_loss` for a single sample (train.py line 38):
negative of the target-class entry of the log-probability row. -/
def nllLoss (lp : List ℚ) (target_class : ℕ) : ℚ :=
  -(lp.getD target_class 0)

/-- `torch.randint(0, high, (1,)).item()` (train.py lines 30-31): fails when
`high ≤ 0`, otherwise yields a value in `[0, high)` determined here by an
abstract seed `r` (every residue is reachable by some seed). -/
def randint0 (high : ℤ) (r : ℕ) : Option ℤ :=
  if high ≤ 0 then none else some ((r : ℤ) % high)

/-- The random placement draw of train.py lines 30-31: `x` bounded by
`image.shape[2] - patch.shape[2]`, `y` by `image.shape[3] - patch.shape[3]`. -/
def samplePlacement (ih iw ph pw : ℕ) (r1 r2 : ℕ) : Option (ℤ × ℤ) :=
  match randint0 ((ih : ℤ) - (ph : ℤ)) r1, randint0 ((iw : ℤ) - (pw : ℤ)) r2 with
  | some x, some y => some (x, y)
  | _, _ => none

/-- The body of the per-image loop of `train_step` (train.py lines 21-52) for
one sample context `img`: evaluate the model on the patched image to get the
log-probability row, compute the nll loss and the single-sample success, apply
the optimizer update when one is supplied, then unconditionally clamp the
shared patch into `[-1, 1]`.  Returns `(loss, success, patch after the
iteration)`. -/
def sampleStep (modelLP : ι → Patch → List ℚ) (target_class : ℕ)
    (opt : Option (ι → Patch → Patch)) (img : ι) (p : Patch) :
    ℚ × ℚ × Patch :=
  let lp := modelLP img p
  let loss := nllLoss lp target_class
  let success := calculate_success [lp] target_class
  let p1 := match opt with
    | some f => f img p
    | none => p
  (loss, success, clampPatch p1)

/-- The accumulator loop of `train_step` (train.py lines 17-52): fold
`sampleStep` over the images of the batch, threading the shared patch and
summing losses and successes.  Returns `(final patch, loss sum, success
sum)`. -/
def stepLoop (modelLP : ι → Patch → List ℚ) (target_class : ℕ)
    (opt : Option (ι → Patch → Patch)) :
    List ι → Patch → ℚ → ℚ → Patch × ℚ × ℚ
  | [], p, accL, accS => (p, accL, accS)
  | img :: rest, p, accL, accS =>
    let r := sampleStep modelLP target_class opt img p
    stepLoop modelLP target_class opt rest r.2.2 (accL + r.1) (accS + r.2.1)

/-- `train_step` (train.py lines 16-57): run the per-image loop over the
batch, then divide the accumulated loss and success by `batch_size`.  The
division raises `ZeroDivisionError` on an empty batch, hence `none` there.
Returns `(patch after the batch, mean loss, mean success)`. -/
def train_step (modelLP : ι → Patch → List ℚ) (target_class : ℕ)
    (opt : Option (ι → Patch → Patch)) (images : List ι) (patch : Patch) :
    Option (Patch × ℚ × ℚ) :=
  let batch_size := images.length
  if batch_size = 0 then none
  else
    let r := stepLoop modelLP target_class opt images patch 0 0
    some (r.1, r.2.1 / batch_size, r.2.2 / batch_size)

/-- The batch loop of the training epoch driver (train.py lines 66-70):
call `train_step` on each batch with the optimizer, threading the shared
patch and summing the batch losses and successes; any failing batch
propagates. -/
def trainBatches (modelLP : ι → Patch → List ℚ) (target_class : ℕ)
    (opt : Option (ι → Patch → Patch)) :
    List (List ι) → Patch → ℚ → ℚ → Option (Patch × ℚ × ℚ)
  | [], p, accL, accS => some (p, accL, accS)
  | b :: rest, p, accL, accS =>
    match train_step modelLP target_class opt b p with
    | none => none
    | some r => trainBatches modelLP target_class opt rest r.1 (accL + r.2.1) (accS + r.2.2)

/-- `train` (train.py lines 61-78): iterate the loader's batches through
`train_step` with the optimizer, then divide by `len(train_loader)` —
`ZeroDivisionError`, hence `none`, on an empty loader. -/
def train (modelLP : ι → Patch → List ℚ) (target_class : ℕ)
    (train_loader : List (List ι)) (patch : Patch)
    (opt : Option (ι → Patch → Patch)) : Option (Patch × ℚ × ℚ) :=
  match trainBatches modelLP target_class opt train_loader patch 0 0 with
  | none => none
  | some r =>
    if train_loader.length = 0 then none
    else some (r.1, r.2.1 / train_loader.length, r.2.2 / train_loader.length)

/-- The batch loop of the validation driver (train.py lines 86-90): identical
to `trainBatches` except that `train_step` is invoked with no optimizer. -/
def valBatches (modelLP : ι → Patch → List ℚ) (target_class : ℕ) :
    List (List ι) → Patch → ℚ → ℚ → Option (Patch × ℚ × ℚ)
  | [], p, accL, accS => some (p, accL, accS)
  | b :: rest, p, accL, accS =>
    match train_step modelLP target_class none b p with
    | none => none
    | some r => valBatches modelLP target_class rest r.1 (accL + r.2.1) (accS + r.2.2)

/-- `val` (train.py lines 81-98): iterate the loader's batches through
`train_step` with `optimizer = None`, then divide by `len(val_loader)`. -/
def val (modelLP : ι → Patch → List ℚ) (target_class : ℕ)
    (val_loader : List (List ι)) (patch : Patch) : Option (Patch × ℚ × ℚ) :=
  match valBatches modelLP target_class val_loader patch 0 0 with
  | none => none
  | some r =>
    if val_loader.length = 0 then none
    else some (r.1, r.2.1 / val_loader.length, r.2.2 / val_loader.length)

/-- The per-sample `(loss, success)` values produced, in order, by the
per-image loop of `train_step` on a batch — each sample is evaluated at the
patch state left by the previous iteration. -/
def sampleVals (modelLP : ι → Patch → List ℚ) (target_class : ℕ)
    (opt : Option (ι → Patch → Patch)) :
    List ι → Patch → List (ℚ × ℚ)
  | [], _ => []
  | img :: rest, p =>
    let r := sampleStep modelLP target_class opt img p
    (r.1, r.2.1) :: sampleVals modelLP target_class opt rest r.2.2

/-- The per-batch `(loss, success)` values produced, in order, by an epoch
driver on a loader — each batch is run at the patch state left by the
previous batch; `none` when some batch fails. -/
def batchVals (modelLP : ι → Patch → List ℚ) (target_class : ℕ)
    (opt : Option (ι → Patch → Patch)) :
    List (List ι) → Patch → Option (List (ℚ × ℚ))
  | [], _ => some []
  | b :: rest, p =>
    match train_step modelLP target_class opt b p with
    | none => none
    | some r =>
      (batchVals modelLP target_class opt rest r.1).map
        (fun t => (r.2.1, r.2.2) :: t)

/-- State of the outer loop of `train_patch` (train.py lines 101-139).
Tensor identity is tracked explicitly: `liveId`/`liveV` are the identity and
values of the shared mutable patch (`initial_patch`), `bestId`/`bestV` those
of the `best_patch` snapshot, and `fresh` is the next unused tensor identity
(each `clone().detach()` allocates a fresh one).  `bestLoss = none` stands for
the initial `float("inf")`. -/
structure LoopSt where
  fresh : ℕ
  liveId : ℕ
  liveV : Patch
  bestLoss : Option ℚ
  bestEpoch : ℕ
  bestId : ℕ
  bestV : Patch
  deriving Repr, DecidableEq

/-- `val_loss < best_val_loss` with `best_val_loss` possibly `float("inf")`
(train.py line 127). -/
def ltBest (x : ℚ) : Option ℚ → Bool
  | none => true
  | some b => decide (x < b)

/-- One iteration of the outer loop's body (train.py lines 111-135), with the
whole epoch's work — `train(...)` followed by `val(...)`, lines 111-114 —
abstracted as `runEpoch : epoch → live patch values → (new live patch values,
val_loss)` (the drivers only reassign `.data`, never the tensor identity).
On improvement: record loss and epoch, snapshot `best_patch =
initial_patch.clone().detach()` (fresh identity, line 130).  Otherwise:
`initial_patch.data = best_patch.clone().detach()` (live values overwritten
by the snapshot, identities unchanged, the intermediate clone's fresh
identity discarded, line 133).  The second component is the early-stopping
test `epoch - best_val_epoch > early_stopping` (line 135). -/
def epochStep (runEpoch : ℕ → Patch → Patch × ℚ) (early_stopping : ℕ)
    (epoch : ℕ) (s : LoopSt) : LoopSt × Bool :=
  let r := runEpoch epoch s.liveV
  let s1 : LoopSt :=
    if ltBest r.2 s.bestLoss then
      { s with liveV := r.1, bestLoss := some r.2, bestEpoch := epoch,
               bestId := s.fresh, bestV := r.1, fresh := s.fresh + 1 }
    else
      { s with liveV := s.bestV, fresh := s.fresh + 1 }
  (s1, decide (epoch - s1.bestEpoch > early_stopping))

/-- The `for epoch in range(epochs)` loop of train.py lines 109-137, with the
remaining epoch count as first argument: run `epochStep`; on a positive
early-stopping test return immediately, otherwise continue.  Returns the
final state together with the number of epochs actually executed. -/
def trainLoop (runEpoch : ℕ → Patch → Patch × ℚ) (early_stopping : ℕ) :
    ℕ → ℕ → LoopSt → LoopSt × ℕ
  | 0, epoch, s => (s, epoch)
  | n + 1, epoch, s =>
    let r := epochStep runEpoch early_stopping epoch s
    if r.2 then (r.1, epoch + 1)
    else trainLoop runEpoch early_stopping n (epoch + 1) r.1

/-- Initial loop state (train.py lines 103-106): live patch is the caller's
`initial_patch` (identity 0), `best_patch = initial_patch.clone().detach()`
(fresh identity 1, same values), `best_val_loss = float("inf")`,
`best_val_epoch = 0`. -/
def initSt (v0 : Patch) : LoopSt :=
  { fresh := 2, liveId := 0, liveV := v0, bestLoss := none, bestEpoch := 0,
    bestId := 1, bestV := v0 }

/-- `train_patch` (train.py lines 101-139): run the epoch loop from the
initial state and return the `best_patch` tensor (identity and values) —
the same tensor is returned by the early-stopping `return` (line 137) and by
the fall-through `return` (line 139). -/
def train_patch (runEpoch : ℕ → Patch → Patch × ℚ) (epochs : ℕ)
    (stop_threshold : ℕ) (initial_patch : Patch) : ℕ × Patch :=
  let r := trainLoop runEpoch stop_threshold epochs 0 (initSt initial_patch)
  (r.1.bestId, r.1.bestV)

/-- The state after unconditionally executing epochs `0, …, e-1` of the outer
loop (early stopping ignored): the reference trace against which the loop
with early return is characterised. -/
def iterSt (runEpoch : ℕ → Patch → Patch × ℚ) (early_stopping : ℕ)
    (v0 : Patch) : ℕ → LoopSt
  | 0 => initSt v0
  | e + 1 => (epochStep runEpoch early_stopping e
      (iterSt runEpoch early_stopping v0 e)).1

/-- Whether the early-stopping test fires at the end of epoch `e` of the
reference trace. -/
def trigger (runEpoch : ℕ → Patch → Patch × ℚ) (early_stopping : ℕ)
    (v0 : Patch) (e : ℕ) : Bool :=
  (epochStep runEpoch early_stopping e
    (iterSt runEpoch early_stopping v0 e)).2

/-- The number of epochs the outer loop executes: one past the first epoch
whose early-stopping test fires, or `epochs` when none fires. -/
def stopCount (runEpoch : ℕ → Patch → Patch × ℚ) (early_stopping : ℕ)
    (v0 : Patch) (epochs : ℕ) : ℕ :=
  match (List.range epochs).find? (trigger runEpoch early_stopping v0) with
  | some e => e + 1
  | none => epochs

/-- A concrete epoch runner realising the spec's worked example: validation
loss improves on epochs 0-3 (10, 9, 8, 7) and is flat (10) from epoch 4 on,
so the best epoch is 3; the patch value after epoch `e` is `[e]`, making the
epoch-3 snapshot `[3]`. -/
def exRun (e : ℕ) (_p : Patch) : Patch × ℚ :=
  ([(e : ℚ)],
    match e with
    | 0 => 10
    | 1 => 9
    | 2 => 8
    | 3 => 7
    | _ => 10)

/-! ## Clipping (C1) -/

theorem clampPatch_bounds (p : Patch) : ∀ v ∈ clampPatch p, -1 ≤ v ∧ v ≤ 1 := by
  intro v hv
  simp only [clampPatch, List.mem_map] at hv
  obtain ⟨u, _, rfl⟩ := hv
  constructor
  · exact le_min (le_max_right u (-1)) (by norm_num)
  · exact min_le_right _ _

theorem stepLoop_patch_clamped (modelLP : ι → Patch → List ℚ) (tc : ℕ)
    (opt : Option (ι → Patch → Patch)) :
    ∀ (images : List ι) (p : Patch) (accL accS : ℚ), images ≠ [] →
      ∀ v ∈ (stepLoop modelLP tc opt images p accL accS).1, -1 ≤ v ∧ v ≤ 1 := by
  intro images
  induction images with
  | nil => intro p accL accS h; exact absurd rfl h
  | cons img rest ih =>
    intro p accL accS _ v hv
    by_cases hr : rest = []
    · subst hr
      simp only [stepLoop, sampleStep] at hv
      exact clampPatch_bounds _ v hv
    · exact ih _ _ _ hr v hv

/-- C1: after every call to the step function — after any optimizer update
followed by the clip — every element of the shared patch lies in `[-1, 1]`;
the clipping is applied unconditionally at the end of every per-image
iteration, whether an optimizer is supplied (training) or not
(validation). -/
theorem train_step_clips {ι : Type} (modelLP : ι → Patch → List ℚ) (tc : ℕ)
    (opt : Option (ι → Patch → Patch)) (images : List ι) (patch : Patch)
    (r : Patch × ℚ × ℚ) (h : train_step modelLP tc opt images patch = some r) :
    (∀ v ∈ r.1, -1 ≤ v ∧ v ≤ 1) ∧
    (∀ (opt2 : Option (ι → Patch → Patch)) (img : ι) (p : Patch),
       ∀ v ∈ (sampleStep modelLP tc opt2 img p).2.2, -1 ≤ v ∧ v ≤ 1) := by
  constructor
  · intro v hv
    simp only [train_step] at h
    by_cases hn : images.length = 0
    · simp [hn] at h
    · simp only [hn, if_false, Option.some.injEq] at h
      have hne : images ≠ [] := by
        intro he; exact hn (by simp [he])
      subst h
      exact stepLoop_patch_clamped modelLP tc opt images patch 0 0 hne v hv
  · intro opt2 img p v hv
    simp only [sampleStep] at hv
    exact clampPatch_bounds _ v hv

/-- Concrete instance of `train_step_clips`: a one-image batch starting from
the out-of-range patch `[5, -7]` ends clipped, and its first element `1`
satisfies the bounds. -/
theorem train_step_clips_witness : -1 ≤ (1 : ℚ) ∧ (1 : ℚ) ≤ 1 :=
  (train_step_clips (fun (_ : ℕ) (_ : Patch) => [(0 : ℚ)]) 0 none [0] [5, -7]
    ([1, -1], 0, 1)
    (by norm_num [train_step, stepLoop, sampleStep, calculate_success,
      nllLoss, clampPatch, argmaxList, argmaxAux])).1 1 (by simp)

/-! ## Random placement (C5) -/

/-- C5: when the transformed patch is strictly smaller than the image in both
dimensions, the placement draw succeeds with `x ∈ [0, ih − ph)` and
`y ∈ [0, iw − pw)` — so the patch never extends outside the image
(`x + ph ≤ ih`, `y + pw ≤ iw`) — and when the patch is at least as large as
the image in either dimension, the draw fails. -/
theorem placement_in_bounds (ih iw ph pw r1 r2 : ℕ) :
    (ph < ih → pw < iw →
       samplePlacement ih iw ph pw r1 r2 =
         some ((r1 : ℤ) % ((ih : ℤ) - (ph : ℤ)), (r2 : ℤ) % ((iw : ℤ) - (pw : ℤ))) ∧
       (∀ x y, samplePlacement ih iw ph pw r1 r2 = some (x, y) →
         0 ≤ x ∧ x < (ih : ℤ) - (ph : ℤ) ∧ x + (ph : ℤ) ≤ (ih : ℤ) ∧
         0 ≤ y ∧ y < (iw : ℤ) - (pw : ℤ) ∧ y + (pw : ℤ) ≤ (iw : ℤ))) ∧
    ((ih ≤ ph ∨ iw ≤ pw) → samplePlacement ih iw ph pw r1 r2 = none) := by
  constructor
  · intro h1 h2
    have hx : (0 : ℤ) < (ih : ℤ) - (ph : ℤ) := by
      have : (ph : ℤ) < (ih : ℤ) := by exact_mod_cast h1
      linarith
    have hy : (0 : ℤ) < (iw : ℤ) - (pw : ℤ) := by
      have : (pw : ℤ) < (iw : ℤ) := by exact_mod_cast h2
      linarith
    have e1 : samplePlacement ih iw ph pw r1 r2 =
        some ((r1 : ℤ) % ((ih : ℤ) - (ph : ℤ)), (r2 : ℤ) % ((iw : ℤ) - (pw : ℤ))) := by
      simp [samplePlacement, randint0, not_le.mpr hx, not_le.mpr hy]
    refine ⟨e1, ?_⟩
    intro x y hxy
    rw [e1] at hxy
    obtain ⟨hx1, hy1⟩ : ((r1 : ℤ) % ((ih : ℤ) - (ph : ℤ)) = x ∧
        (r2 : ℤ) % ((iw : ℤ) - (pw : ℤ)) = y) := by
      simpa [Prod.ext_iff] using hxy
    subst hx1
    subst hy1
    have nx := Int.emod_nonneg (r1 : ℤ) (ne_of_gt hx)
    have lx := Int.emod_lt_of_pos (r1 : ℤ) hx
    have ny := Int.emod_nonneg (r2 : ℤ) (ne_of_gt hy)
    have ly := Int.emod_lt_of_pos (r2 : ℤ) hy
    exact ⟨nx, lx, by linarith, ny, ly, by linarith⟩
  · intro h
    rcases h with h | h
    · have hx : (ih : ℤ) - (ph : ℤ) ≤ 0 := by
        have : (ih : ℤ) ≤ (ph : ℤ) := by exact_mod_cast h
        linarith
      simp [samplePlacement, randint0, hx]
    · have hy : (iw : ℤ) - (pw : ℤ) ≤ 0 := by
        have : (iw : ℤ) ≤ (pw : ℤ) := by exact_mod_cast h
        linarith
      rcases le_or_lt ((ih : ℤ) - (ph : ℤ)) 0 with h1 | h1
      · simp [samplePlacement, randint0, h1, hy]
      · simp [samplePlacement, randint0, not_le.mpr h1, hy]

/-- Concrete instance of `placement_in_bounds`: a 3×3 patch in a 10×10 image
is placed at `(8 % 7, 15 % 7) = (1, 1)`, and a 10-high patch in a 10-high
image makes the draw fail. -/
theorem placement_in_bounds_witness :
    samplePlacement 10 10 3 3 8 15 = some ((8 : ℤ) % 7, (15 : ℤ) % 7) ∧
    samplePlacement 10 10 10 3 8 15 = none :=
  ⟨by
    have e := ((placement_in_bounds 10 10 3 3 8 15).1 (by norm_num) (by norm_num)).1
    simpa using e,
   (placement_in_bounds 10 10 10 3 8 15).2 (Or.inl (by norm_num))⟩

/-! ## Success metric (C4) -/

theorem argmaxAux_spec (l : List ℚ) : ∀ (i bi : ℕ) (bv : ℚ),
    (argmaxAux l i bi bv = bi ∧ ∀ k, k < l.length → l.getD k 0 ≤ bv) ∨
    (∃ k, k < l.length ∧ argmaxAux l i bi bv = i + k ∧ bv < l.getD k 0 ∧
      (∀ j, j < k → l.getD j 0 < l.getD k 0) ∧
      (∀ j, j < l.length → k < j → l.getD j 0 ≤ l.getD k 0)) := by
  induction l with
  | nil =>
    intro i bi bv
    left
    exact ⟨rfl, by intro k hk; simp at hk⟩
  | cons v rest ih =>
    intro i bi bv
    by_cases hv : bv < v
    · rcases ih (i + 1) i v with ⟨h1, h2⟩ | ⟨k, hk, h1, h2, h3, h4⟩
      · right
        refine ⟨0, by simp, ?_, by simpa using hv, ?_, ?_⟩
        · simpa [argmaxAux, hv] using h1
        · intro j hj; omega
        · intro j hj h0
          obtain ⟨j, rfl⟩ : ∃ m, j = m + 1 := ⟨j - 1, by omega⟩
          simpa using h2 j (by simpa using hj)
      · right
        refine ⟨k + 1, by simpa using hk, ?_, ?_, ?_, ?_⟩
        · have : argmaxAux (v :: rest) i bi bv = argmaxAux rest (i + 1) i v := by
            simp [argmaxAux, hv]
          rw [this, h1]; omega
        · simpa using lt_trans hv h2
        · intro j hj
          match j, hj with
          | 0, _ => simpa using h2
          | j + 1, hj => simpa using h3 j (by omega)
        · intro j hj hkj
          match j, hj, hkj with
          | j + 1, hj, hkj => simpa using h4 j (by simpa using hj) (by omega)
    · rcases ih (i + 1) bi bv with ⟨h1, h2⟩ | ⟨k, hk, h1, h2, h3, h4⟩
      · left
        refine ⟨by simpa [argmaxAux, hv] using h1, ?_⟩
        intro k hk
        match k, hk with
        | 0, _ => simpa using le_of_not_lt hv
        | k + 1, hk => simpa using h2 k (by simpa using hk)
      · right
        refine ⟨k + 1, by simpa using hk, ?_, ?_, ?_, ?_⟩
        · have : argmaxAux (v :: rest) i bi bv = argmaxAux rest (i + 1) bi bv := by
            simp [argmaxAux, hv]
          rw [this, h1]; omega
        · simpa using h2
        · intro j hj
          match j, hj with
          | 0, _ =>
            have : v ≤ bv := le_of_not_lt hv
            simpa using lt_of_le_of_lt this h2
          | j + 1, hj => simpa using h3 j (by omega)
        · intro j hj hkj
          match j, hj, hkj with
          | j + 1, hj, hkj => simpa using h4 j (by simpa using hj) (by omega)

theorem argmaxList_spec (row : List ℚ) (h : row ≠ []) :
    argmaxList row < row.length ∧
    (∀ j, j < row.length → row.getD j 0 ≤ row.getD (argmaxList row) 0) ∧
    (∀ j, j < argmaxList row → row.getD j 0 < row.getD (argmaxList row) 0) := by
  match row, h with
  | v :: rest, _ =>
    have hd : argmaxList (v :: rest) = argmaxAux rest 1 0 v := rfl
    rcases argmaxAux_spec rest 1 0 v with ⟨h1, h2⟩ | ⟨k, hk, h1, h2, h3, h4⟩
    · rw [hd, h1]
      refine ⟨by simp, ?_, by intro j hj; omega⟩
      intro j hj
      match j, hj with
      | 0, _ => simp
      | j + 1, hj => simpa using h2 j (by simpa using hj)
    · have hm : argmaxList (v :: rest) = k + 1 := by rw [hd, h1]; omega
      rw [hm]
      have hget : (v :: rest).getD (k + 1) 0 = rest.getD k 0 := by simp
      refine ⟨by simpa using hk, ?_, ?_⟩
      · intro j hj
        match j, hj with
        | 0, _ => rw [hget]; simpa using le_of_lt h2
        | j + 1, hj =>
          rcases lt_trichotomy j k with hc | hc | hc
          · rw [hget]; simpa using le_of_lt (h3 j hc)
          · subst hc; simp
          · rw [hget]; simpa using h4 j (by simpa using hj) hc
      · intro j hj
        match j, hj with
        | 0, _ => rw [hget]; simpa using h2
        | j + 1, hj => rw [hget]; simpa using h3 j (by omega)

theorem indicator_sum (tc : ℕ) (l : List ℕ) :
    (l.map (fun c => if c = tc then (1 : ℚ) else 0)).sum =
      ((l.countP (fun c => c == tc) : ℕ) : ℚ) := by
  induction l with
  | nil => simp
  | cons a l ih =>
    by_cases h : a = tc
    · simp [List.countP_cons, h, ih]
      ring
    · simp [List.countP_cons, h, ih]

/-- C4: the success metric equals the fraction of rows whose (first-maximum)
argmax index equals the target class; it lies in `[0, 1]`, covers the
batch-size-1 case as the plain 0/1 indicator, and per-row argmax satisfies
the first-maximum convention on ties: every entry is `≤` the selected one and
every earlier entry is strictly smaller. -/
theorem success_fraction (result : List (List ℚ)) (tc : ℕ) (h : result ≠ []) :
    calculate_success result tc =
      ((result.countP (fun row => argmaxList row == tc) : ℕ) : ℚ) / result.length ∧
    0 ≤ calculate_success result tc ∧ calculate_success result tc ≤ 1 ∧
    (∀ row : List ℚ,
      calculate_success [row] tc = if argmaxList row = tc then 1 else 0) ∧
    (∀ row : List ℚ, row ≠ [] →
      argmaxList row < row.length ∧
      (∀ j, j < row.length → row.getD j 0 ≤ row.getD (argmaxList row) 0) ∧
      (∀ j, j < argmaxList row → row.getD j 0 < row.getD (argmaxList row) 0)) := by
  have hlen : 0 < result.length := List.length_pos.mpr h
  have heq : calculate_success result tc =
      ((result.countP (fun row => argmaxList row == tc) : ℕ) : ℚ) / result.length := by
    simp only [calculate_success]
    rw [indicator_sum tc (result.map argmaxList), List.countP_map]
    rfl
  refine ⟨heq, ?_, ?_, ?_, fun row hr => argmaxList_spec row hr⟩
  · rw [heq]
    apply div_nonneg (by positivity) (by positivity)
  · rw [heq]
    rw [div_le_one (by exact_mod_cast hlen)]
    exact_mod_cast result.countP_le_length (fun row => argmaxList row == tc)
  · intro row
    by_cases hrow : argmaxList row = tc <;>
      simp [calculate_success, hrow]

/-- Concrete instance of `success_fraction`: in a two-row batch with target
class 1, exactly the first row has argmax 1, so the success is `1 / 2`. -/
theorem success_fraction_witness :
    calculate_success [[(1 : ℚ), 2], [(2 : ℚ), 1]] 1 =
      (((List.countP (fun row => argmaxList row == 1)
          [[(1 : ℚ), 2], [(2 : ℚ), 1]] : ℕ)) : ℚ) / 2 := by
  have e := (success_fraction [[(1 : ℚ), 2], [(2 : ℚ), 1]] 1 (by simp)).1
  simpa using e

/-! ## Averaging (C7), validation refinement (C8), non-emptiness (C9) -/

theorem stepLoop_acc (modelLP : ι → Patch → List ℚ) (tc : ℕ)
    (opt : Option (ι → Patch → Patch)) :
    ∀ (images : List ι) (p : Patch) (aL aS : ℚ),
      (stepLoop modelLP tc opt images p aL aS).2.1 =
        aL + ((sampleVals modelLP tc opt images p).map Prod.fst).sum ∧
      (stepLoop modelLP tc opt images p aL aS).2.2 =
        aS + ((sampleVals modelLP tc opt images p).map Prod.snd).sum := by
  intro images
  induction images with
  | nil => intro p aL aS; simp [stepLoop, sampleVals]
  | cons img rest ih =>
    intro p aL aS
    have h := ih (sampleStep modelLP tc opt img p).2.2
      (aL + (sampleStep modelLP tc opt img p).1)
      (aS + (sampleStep modelLP tc opt img p).2.1)
    simp only [stepLoop, sampleVals, List.map_cons, List.sum_cons]
    exact ⟨by rw [h.1]; ring, by rw [h.2]; ring⟩

theorem trainBatches_acc (modelLP : ι → Patch → List ℚ) (tc : ℕ)
    (opt : Option (ι → Patch → Patch)) :
    ∀ (loader : List (List ι)) (p : Patch) (aL aS : ℚ),
      (trainBatches modelLP tc opt loader p aL aS).map (fun r => (r.2.1, r.2.2)) =
        (batchVals modelLP tc opt loader p).map
          (fun vals => (aL + (vals.map Prod.fst).sum, aS + (vals.map Prod.snd).sum)) := by
  intro loader
  induction loader with
  | nil => intro p aL aS; simp [trainBatches, batchVals]
  | cons b rest ih =>
    intro p aL aS
    cases ht : train_step modelLP tc opt b p with
    | none => simp [trainBatches, batchVals, ht]
    | some r =>
      simp only [trainBatches, batchVals, ht]
      rw [ih r.1 (aL + r.2.1) (aS + r.2.2)]
      cases hb : batchVals modelLP tc opt rest r.1 with
      | none => rfl
      | some vals =>
        simp only [Option.map_some', Option.some.injEq, Prod.mk.injEq,
          List.map_cons, List.sum_cons]
        constructor <;> ring

theorem valBatches_eq_trainBatches (modelLP : ι → Patch → List ℚ) (tc : ℕ) :
    ∀ (loader : List (List ι)) (p : Patch) (aL aS : ℚ),
      valBatches modelLP tc loader p aL aS =
        trainBatches modelLP tc none loader p aL aS := by
  intro loader
  induction loader with
  | nil => intro p aL aS; rfl
  | cons b rest ih =>
    intro p aL aS
    cases ht : train_step modelLP tc none b p with
    | none => simp [valBatches, trainBatches, ht]
    | some r => simp [valBatches, trainBatches, ht, ih]

theorem val_eq_train_none (modelLP : ι → Patch → List ℚ) (tc : ℕ)
    (loader : List (List ι)) (p : Patch) :
    val modelLP tc loader p = train modelLP tc loader p none := by
  unfold val train
  rw [valBatches_eq_trainBatches]

theorem train_step_mean (modelLP : ι → Patch → List ℚ) (tc : ℕ)
    (opt : Option (ι → Patch → Patch)) (images : List ι) (p : Patch) :
    (train_step modelLP tc opt images p).map (fun r => (r.2.1, r.2.2)) =
      if images.length = 0 then none
      else some
        (((sampleVals modelLP tc opt images p).map Prod.fst).sum / images.length,
         ((sampleVals modelLP tc opt images p).map Prod.snd).sum / images.length) := by
  have h := stepLoop_acc modelLP tc opt images p 0 0
  by_cases hn : images.length = 0
  · simp [train_step, hn]
  · have e : train_step modelLP tc opt images p =
        some ((stepLoop modelLP tc opt images p 0 0).1,
          (stepLoop modelLP tc opt images p 0 0).2.1 / images.length,
          (stepLoop modelLP tc opt images p 0 0).2.2 / images.length) := by
      simp [train_step, hn]
    rw [e, h.1, h.2]
    simp [hn]

theorem train_mean (modelLP : ι → Patch → List ℚ) (tc : ℕ)
    (opt : Option (ι → Patch → Patch)) (loader : List (List ι)) (p : Patch) :
    (train modelLP tc loader p opt).map (fun r => (r.2.1, r.2.2)) =
      if loader.length = 0 then none
      else (batchVals modelLP tc opt loader p).map
        (fun vals => ((vals.map Prod.fst).sum / (loader.length : ℚ),
                      (vals.map Prod.snd).sum / (loader.length : ℚ))) := by
  have h := trainBatches_acc modelLP tc opt loader p 0 0
  unfold train
  cases ht : trainBatches modelLP tc opt loader p 0 0 with
  | none =>
    rw [ht] at h
    have hb : batchVals modelLP tc opt loader p = none := by
      cases hb2 : batchVals modelLP tc opt loader p with
      | none => rfl
      | some vals => rw [hb2] at h; simp at h
    simp [hb]
  | some r =>
    rw [ht] at h
    cases hb2 : batchVals modelLP tc opt loader p with
    | none => rw [hb2] at h; simp at h
    | some vals =>
      rw [hb2] at h
      simp only [Option.map_some', Option.some.injEq, Prod.mk.injEq] at h
      by_cases hn : loader.length = 0
      · simp [hn]
      · simp only [hn, if_false, hb2, Option.map_some']
        rw [h.1, h.2]
        simp [zero_add]

/-- C7: batch-level loss and success returned by `train_step` are the
unweighted arithmetic means of the per-sample values, and epoch-level loss
and success returned by the `train` and `val` drivers are the unweighted
arithmetic means of the per-batch values — simple averaging by the number of
images and by the number of batches respectively. -/
theorem unweighted_means {ι : Type} (modelLP : ι → Patch → List ℚ) (tc : ℕ)
    (opt : Option (ι → Patch → Patch)) :
    (∀ (images : List ι) (p : Patch),
       (train_step modelLP tc opt images p).map (fun r => (r.2.1, r.2.2)) =
         if images.length = 0 then none
         else some
           (((sampleVals modelLP tc opt images p).map Prod.fst).sum / images.length,
            ((sampleVals modelLP tc opt images p).map Prod.snd).sum / images.length)) ∧
    (∀ (loader : List (List ι)) (p : Patch),
       (train modelLP tc loader p opt).map (fun r => (r.2.1, r.2.2)) =
         if loader.length = 0 then none
         else (batchVals modelLP tc opt loader p).map
           (fun vals => ((vals.map Prod.fst).sum / (loader.length : ℚ),
                         (vals.map Prod.snd).sum / (loader.length : ℚ)))) ∧
    (∀ (loader : List (List ι)) (p : Patch),
       (val modelLP tc loader p).map (fun r => (r.2.1, r.2.2)) =
         if loader.length = 0 then none
         else (batchVals modelLP tc none loader p).map
           (fun vals => ((vals.map Prod.fst).sum / (loader.length : ℚ),
                         (vals.map Prod.snd).sum / (loader.length : ℚ)))) :=
  ⟨fun images p => train_step_mean modelLP tc opt images p,
   fun loader p => train_mean modelLP tc opt loader p,
   fun loader p => by
     rw [val_eq_train_none]
     exact train_mean modelLP tc none loader p⟩

theorem sampleVals_fixed_outputs {ι : Type} (out : ι → List ℚ) (tc : ℕ)
    (opt1 opt2 : Option (ι → Patch → Patch)) :
    ∀ (images : List ι) (p q : Patch),
      sampleVals (fun img _ => out img) tc opt1 images p =
        sampleVals (fun img _ => out img) tc opt2 images q := by
  intro images
  induction images with
  | nil => intro p q; rfl
  | cons img rest ih =>
    intro p q
    simp only [sampleVals, sampleStep]
    congr 1
    exact ih _ _

/-- C8: the validation driver is the training driver with `optimizer = None`
— `val` agrees with `train` called without an optimizer on every loader and
patch — and the per-sample computation is identical in the two modes except
for the parameter update: loss and success of a sample are computed before
the update and do not depend on the optimizer, so a single-sample step
reports the same loss and success in both modes, and when the model outputs
for each sample are held identical (independent of the evolving patch) a
whole training batch reports the same batch-averaged loss and success as the
validation batch. -/
theorem val_refines_train {ι : Type} (modelLP : ι → Patch → List ℚ) (tc : ℕ) :
    (∀ (loader : List (List ι)) (p : Patch),
       val modelLP tc loader p = train modelLP tc loader p none) ∧
    (∀ (f : ι → Patch → Patch) (img : ι) (p : Patch),
       (sampleStep modelLP tc (some f) img p).1 =
         (sampleStep modelLP tc none img p).1 ∧
       (sampleStep modelLP tc (some f) img p).2.1 =
         (sampleStep modelLP tc none img p).2.1) ∧
    (∀ (f : ι → Patch → Patch) (img : ι) (p : Patch),
       (train_step modelLP tc (some f) [img] p).map (fun r => (r.2.1, r.2.2)) =
         (train_step modelLP tc none [img] p).map (fun r => (r.2.1, r.2.2))) ∧
    (∀ (out : ι → List ℚ) (f : ι → Patch → Patch) (images : List ι) (p : Patch),
       (train_step (fun img _ => out img) tc (some f) images p).map
           (fun r => (r.2.1, r.2.2)) =
         (train_step (fun img _ => out img) tc none images p).map
           (fun r => (r.2.1, r.2.2))) :=
  ⟨fun loader p => val_eq_train_none modelLP tc loader p,
   fun _ _ _ => ⟨rfl, rfl⟩,
   fun f img p => by simp [train_step, stepLoop, sampleStep],
   fun out f images p => by
     rw [train_step_mean, train_step_mean,
       sampleVals_fixed_outputs out tc (some f) none images p p]⟩

theorem trainBatches_isSome (modelLP : ι → Patch → List ℚ) (tc : ℕ)
    (opt : Option (ι → Patch → Patch)) :
    ∀ (loader : List (List ι)) (p : Patch) (aL aS : ℚ),
      (∀ b ∈ loader, b ≠ []) →
      (trainBatches modelLP tc opt loader p aL aS).isSome = true := by
  intro loader
  induction loader with
  | nil => intro p aL aS _; rfl
  | cons b rest ih =>
    intro p aL aS hb
    have hbne : b ≠ [] := hb b (by simp)
    have hlen : b.length ≠ 0 := fun he => hbne (List.length_eq_zero.mp he)
    simp only [trainBatches, train_step, hlen, if_false]
    exact ih _ _ _ (fun b2 hb2 => hb b2 (by simp [hb2]))

/-- C9: the final averaging divides by the batch size / loader length, so an
empty image batch makes `train_step` fail and an empty loader makes the
`train` and `val` drivers fail (`ZeroDivisionError`, modelled as `none`);
conversely, with a non-empty batch, and a non-empty loader of non-empty
batches, the division-by-zero branch is unreachable and each call returns a
value. -/
theorem nonempty_required {ι : Type} (modelLP : ι → Patch → List ℚ) (tc : ℕ)
    (opt : Option (ι → Patch → Patch)) :
    (∀ p : Patch, train_step modelLP tc opt ([] : List ι) p = none) ∧
    (∀ p : Patch, train modelLP tc ([] : List (List ι)) p opt = none) ∧
    (∀ p : Patch, val modelLP tc ([] : List (List ι)) p = none) ∧
    (∀ (images : List ι) (p : Patch), images ≠ [] →
       (train_step modelLP tc opt images p).isSome = true) ∧
    (∀ (loader : List (List ι)) (p : Patch), loader ≠ [] →
       (∀ b ∈ loader, b ≠ []) →
       (train modelLP tc loader p opt).isSome = true ∧
       (val modelLP tc loader p).isSome = true) := by
  have htr : ∀ (loader : List (List ι)) (p : Patch), loader ≠ [] →
      (∀ b ∈ loader, b ≠ []) →
      ∀ (opt2 : Option (ι → Patch → Patch)),
      (train modelLP tc loader p opt2).isSome = true := by
    intro loader p hl hb opt2
    have h := trainBatches_isSome modelLP tc opt2 loader p 0 0 hb
    unfold train
    cases ht : trainBatches modelLP tc opt2 loader p 0 0 with
    | none => rw [ht] at h; simp at h
    | some r =>
      have hlen : loader.length ≠ 0 := fun he => hl (List.length_eq_zero.mp he)
      simp [hlen]
  refine ⟨fun p => rfl, fun p => rfl, fun p => rfl, ?_, ?_⟩
  · intro images p him
    have hlen : images.length ≠ 0 := fun he => him (List.length_eq_zero.mp he)
    simp [train_step, hlen]
  · intro loader p hl hb
    refine ⟨htr loader p hl hb opt, ?_⟩
    rw [val_eq_train_none]
    exact htr loader p hl hb none

/-- Concrete instance of `nonempty_required`: an empty batch fails, while a
one-batch loader of one image succeeds for both drivers. -/
theorem nonempty_required_witness :
    train_step (fun (_ : ℕ) (_ : Patch) => [(0 : ℚ)]) 0 none ([] : List ℕ) [0] = none ∧
    (train_step (fun (_ : ℕ) (_ : Patch) => [(0 : ℚ)]) 0 none [0] [0]).isSome = true ∧
    (train (fun (_ : ℕ) (_ : Patch) => [(0 : ℚ)]) 0 [[0]] [0] none).isSome = true ∧
    (val (fun (_ : ℕ) (_ : Patch) => [(0 : ℚ)]) 0 [[0]] [0]).isSome = true := by
  have h := nonempty_required (fun (_ : ℕ) (_ : Patch) => [(0 : ℚ)]) 0 none
  have hd := h.2.2.2.2 [[0]] [0] (by simp) (by simp)
  exact ⟨h.1 [0], h.2.2.2.1 [0] [0] (by simp), hd.1, hd.2⟩

/-! ## Outer loop (C2, C3, C6, C10) -/

theorem epochStep_iterSt (runEpoch : ℕ → Patch → Patch × ℚ) (es : ℕ)
    (v0 : Patch) (e : ℕ) :
    epochStep runEpoch es e (iterSt runEpoch es v0 e) =
      (iterSt runEpoch es v0 (e + 1), trigger runEpoch es v0 e) := rfl

theorem trainLoop_eq (runEpoch : ℕ → Patch → Patch × ℚ) (es : ℕ) (v0 : Patch) :
    ∀ (n e : ℕ),
      trainLoop runEpoch es n e (iterSt runEpoch es v0 e) =
        (match (List.range' e n).find? (trigger runEpoch es v0) with
         | some j => (iterSt runEpoch es v0 (j + 1), j + 1)
         | none => (iterSt runEpoch es v0 (e + n), e + n)) := by
  intro n
  induction n with
  | zero => intro e; simp [trainLoop, List.range']
  | succ n ih =>
    intro e
    rw [List.range'_succ]
    simp only [trainLoop, epochStep_iterSt runEpoch es v0 e]
    cases htr : trigger runEpoch es v0 e with
    | true => simp [List.find?, htr]
    | false =>
      simp only [List.find?, htr, cond_false, if_false]
      rw [ih (e + 1)]
      cases hf : (List.range' (e + 1) n).find? (trigger runEpoch es v0) with
      | some j => simp
      | none =>
        have : e + 1 + n = e + (n + 1) := by omega
        simp [this]

theorem find?_range'_first (p : ℕ → Bool) :
    ∀ (m s j : ℕ), (List.range' s m).find? p = some j →
      s ≤ j ∧ j < s + m ∧ p j = true ∧ ∀ i, s ≤ i → i < j → p i = false := by
  intro m
  induction m with
  | zero => intro s j h; simp [List.range'] at h
  | succ m ih =>
    intro s j h
    rw [List.range'_succ] at h
    cases hp : p s with
    | true =>
      simp [List.find?, hp] at h
      subst h
      exact ⟨le_refl s, by omega, hp, fun i h1 h2 => absurd h1 (by omega)⟩
    | false =>
      simp only [List.find?, hp, cond_false] at h
      obtain ⟨h1, h2, h3, h4⟩ := ih (s + 1) j h
      refine ⟨by omega, by omega, h3, ?_⟩
      intro i hi1 hi2
      by_cases he : i = s
      · subst he; exact hp
      · exact h4 i (by omega) hi2

theorem stopCount_eq_some (runEpoch : ℕ → Patch → Patch × ℚ) (es : ℕ)
    (v0 : Patch) (epochs j : ℕ)
    (h : (List.range epochs).find? (trigger runEpoch es v0) = some j) :
    stopCount runEpoch es v0 epochs = j + 1 := by
  unfold stopCount
  rw [h]

theorem stopCount_eq_none (runEpoch : ℕ → Patch → Patch × ℚ) (es : ℕ)
    (v0 : Patch) (epochs : ℕ)
    (h : (List.range epochs).find? (trigger runEpoch es v0) = none) :
    stopCount runEpoch es v0 epochs = epochs := by
  unfold stopCount
  rw [h]

/-- C2: the outer loop stops after `stopCount` epochs — one past the first
epoch whose early-stopping test `epoch − best_val_epoch > early_stopping`
fires, or `epochs` when no test fires — and its final state is the reference
trace at that point.  No test fires strictly before the stopping point, the
loop never runs past a firing test, and a stop before exhaustion implies the
test fired at the last executed epoch.  Concretely, on a run whose loss
improves up to epoch 3 and never afterwards, with patience 5 and 20
configured epochs, the loop executes epochs 0-9 (stopping at epoch 9) and
`train_patch` returns the epoch-3 snapshot `[3]`. -/
theorem early_stopping_spec (runEpoch : ℕ → Patch → Patch × ℚ) (es epochs : ℕ)
    (v0 : Patch) :
    (trainLoop runEpoch es epochs 0 (initSt v0) =
       (iterSt runEpoch es v0 (stopCount runEpoch es v0 epochs),
        stopCount runEpoch es v0 epochs)) ∧
    (∀ e, trigger runEpoch es v0 e =
       decide (e - (iterSt runEpoch es v0 (e + 1)).bestEpoch > es)) ∧
    stopCount runEpoch es v0 epochs ≤ epochs ∧
    (∀ i, i + 1 < stopCount runEpoch es v0 epochs →
       trigger runEpoch es v0 i = false) ∧
    (∀ j, j < epochs → trigger runEpoch es v0 j = true →
       stopCount runEpoch es v0 epochs ≤ j + 1) ∧
    (stopCount runEpoch es v0 epochs < epochs →
       trigger runEpoch es v0 (stopCount runEpoch es v0 epochs - 1) = true) ∧
    (stopCount exRun 5 [0] 20 = 10 ∧
     (iterSt exRun 5 [0] 10).bestEpoch = 3 ∧
     train_patch exRun 20 5 [0] = (5, [(3 : ℚ)]) ∧
     exRun 3 (iterSt exRun 5 [0] 3).liveV = ([(3 : ℚ)], 7)) := by
  have hinit : initSt v0 = iterSt runEpoch es v0 0 := rfl
  have hrange : List.range epochs = List.range' 0 epochs := List.range_eq_range' epochs
  refine ⟨?_, fun e => rfl, ?_, ?_, ?_, ?_, by decide, by decide, by decide, by decide⟩
  · rw [hinit, trainLoop_eq runEpoch es v0 epochs 0, ← hrange]
    cases hf : (List.range epochs).find? (trigger runEpoch es v0) with
    | some j => rw [stopCount_eq_some runEpoch es v0 epochs j hf]
    | none => rw [stopCount_eq_none runEpoch es v0 epochs hf]; simp
  · cases hf : (List.range epochs).find? (trigger runEpoch es v0) with
    | some j =>
      rw [stopCount_eq_some runEpoch es v0 epochs j hf]
      have := List.mem_range.mp (List.mem_of_find?_eq_some hf)
      omega
    | none => rw [stopCount_eq_none runEpoch es v0 epochs hf]
  · intro i hi
    cases hf : (List.range epochs).find? (trigger runEpoch es v0) with
    | some j =>
      rw [stopCount_eq_some runEpoch es v0 epochs j hf] at hi
      rw [hrange] at hf
      exact (find?_range'_first _ epochs 0 j hf).2.2.2 i (by omega) (by omega)
    | none =>
      rw [stopCount_eq_none runEpoch es v0 epochs hf] at hi
      have := List.find?_eq_none.mp hf
      have hmem : i ∈ List.range epochs := List.mem_range.mpr (by omega)
      simpa using this i hmem
  · intro j hj htrig
    cases hf : (List.range epochs).find? (trigger runEpoch es v0) with
    | some j0 =>
      rw [stopCount_eq_some runEpoch es v0 epochs j0 hf]
      by_contra hc
      have hj0 : j < j0 := by omega
      rw [hrange] at hf
      have := (find?_range'_first _ epochs 0 j0 hf).2.2.2 j (by omega) hj0
      rw [htrig] at this
      exact Bool.true_eq_false.mp this
    | none =>
      have := List.find?_eq_none.mp hf j (List.mem_range.mpr hj)
      rw [htrig] at this
      exact absurd rfl this
  · intro hlt
    cases hf : (List.range epochs).find? (trigger runEpoch es v0) with
    | some j =>
      rw [stopCount_eq_some runEpoch es v0 epochs j hf]
      have : j + 1 - 1 = j := by omega
      rw [this]
      exact List.find?_some hf
    | none =>
      rw [stopCount_eq_none runEpoch es v0 epochs hf] at hlt
      omega

/-- Concrete instance of `early_stopping_spec`: on the example run, epoch 3
precedes the stopping point, so its early-stopping test does not fire. -/
theorem early_stopping_spec_witness : trigger exRun 5 [0] 3 = false :=
  (early_stopping_spec exRun 5 20 [0]).2.2.2.1 3 (by decide)

/-- C3: in the outer loop's epoch body, the best snapshot (loss, epoch and
patch values) is updated exactly when the epoch's validation loss passes the
`val_loss < best_val_loss` test — a strict improvement, since for an already
recorded best loss `b` the test is `val_loss < b`, so an equal loss fails it
— and on a failing test the best fields are left untouched while the live
patch values are overwritten with the best snapshot's values. -/
theorem best_update_iff (runEpoch : ℕ → Patch → Patch × ℚ) (es e : ℕ)
    (s : LoopSt) (pv : Patch) (vl : ℚ) (h : runEpoch e s.liveV = (pv, vl)) :
    (ltBest vl s.bestLoss = true →
       (epochStep runEpoch es e s).1.bestLoss = some vl ∧
       (epochStep runEpoch es e s).1.bestEpoch = e ∧
       (epochStep runEpoch es e s).1.bestV = pv ∧
       (epochStep runEpoch es e s).1.liveV = pv) ∧
    (ltBest vl s.bestLoss = false →
       (epochStep runEpoch es e s).1.bestLoss = s.bestLoss ∧
       (epochStep runEpoch es e s).1.bestEpoch = s.bestEpoch ∧
       (epochStep runEpoch es e s).1.bestV = s.bestV ∧
       (epochStep runEpoch es e s).1.bestId = s.bestId ∧
       (epochStep runEpoch es e s).1.liveV = s.bestV) ∧
    (∀ b : ℚ, s.bestLoss = some b → (ltBest vl s.bestLoss = true ↔ vl < b)) ∧
    (s.bestLoss = none → ltBest vl s.bestLoss = true) := by
  refine ⟨?_, ?_, ?_, ?_⟩
  · intro hlt
    simp [epochStep, h, hlt]
  · intro hlt
    simp [epochStep, h, hlt]
  · intro b hb
    simp [ltBest, hb]
  · intro hb
    simp [ltBest, hb]

/-- Concrete instance of `best_update_iff`: epoch 0 of the example run
improves on the initial infinite best loss and records epoch 0 as best;
epoch 4 does not improve and rolls the live values back to the snapshot. -/
theorem best_update_iff_witness :
    (epochStep exRun 5 0 (initSt [0])).1.bestEpoch = 0 ∧
    (epochStep exRun 5 4 (iterSt exRun 5 [0] 4)).1.liveV =
      (iterSt exRun 5 [0] 4).bestV :=
  ⟨((best_update_iff exRun 5 0 (initSt [0]) [0] 10 (by decide)).1
      (by decide)).2.1,
   ((best_update_iff exRun 5 4 (iterSt exRun 5 [0] 4) [(4 : ℚ)] 10
      (by decide)).2.1 (by decide)).2.2.2.2⟩

theorem iterSt_inv (runEpoch : ℕ → Patch → Patch × ℚ) (es : ℕ) (v0 : Patch) :
    ∀ e, (iterSt runEpoch es v0 e).liveId = 0 ∧
      1 ≤ (iterSt runEpoch es v0 e).bestId ∧
      (iterSt runEpoch es v0 e).bestId < (iterSt runEpoch es v0 e).fresh ∧
      ((iterSt runEpoch es v0 e).bestLoss = none →
         (iterSt runEpoch es v0 e).bestV = v0 ∧
         (iterSt runEpoch es v0 e).bestEpoch = 0) ∧
      (∀ l, (iterSt runEpoch es v0 e).bestLoss = some l →
         (iterSt runEpoch es v0 e).bestEpoch < e ∧
         runEpoch (iterSt runEpoch es v0 e).bestEpoch
             (iterSt runEpoch es v0 (iterSt runEpoch es v0 e).bestEpoch).liveV =
           ((iterSt runEpoch es v0 e).bestV, l)) := by
  intro e
  induction e with
  | zero =>
    refine ⟨rfl, by simp [iterSt, initSt], by simp [iterSt, initSt], ?_, ?_⟩
    · intro _; exact ⟨rfl, rfl⟩
    · intro l hl; simp [iterSt, initSt] at hl
  | succ e ih =>
    obtain ⟨h0, h1, h2, h3, h4⟩ := ih
    by_cases hlt : ltBest (runEpoch e (iterSt runEpoch es v0 e).liveV).2
        (iterSt runEpoch es v0 e).bestLoss = true
    · have hstep : iterSt runEpoch es v0 (e + 1) =
          { fresh := (iterSt runEpoch es v0 e).fresh + 1,
            liveId := (iterSt runEpoch es v0 e).liveId,
            liveV := (runEpoch e (iterSt runEpoch es v0 e).liveV).1,
            bestLoss := some (runEpoch e (iterSt runEpoch es v0 e).liveV).2,
            bestEpoch := e,
            bestId := (iterSt runEpoch es v0 e).fresh,
            bestV := (runEpoch e (iterSt runEpoch es v0 e).liveV).1 } := by
        simp [iterSt, epochStep, hlt]
      rw [hstep]
      refine ⟨h0, ?_, ?_, ?_, ?_⟩
      · show 1 ≤ (iterSt runEpoch es v0 e).fresh
        omega
      · show (iterSt runEpoch es v0 e).fresh < (iterSt runEpoch es v0 e).fresh + 1
        omega
      · intro hn
        simp at hn
      · intro l hl
        simp only [Option.some.injEq] at hl
        refine ⟨Nat.lt_succ_self e, ?_⟩
        rw [← hl]
    · have hstep : iterSt runEpoch es v0 (e + 1) =
          { fresh := (iterSt runEpoch es v0 e).fresh + 1,
            liveId := (iterSt runEpoch es v0 e).liveId,
            liveV := (iterSt runEpoch es v0 e).bestV,
            bestLoss := (iterSt runEpoch es v0 e).bestLoss,
            bestEpoch := (iterSt runEpoch es v0 e).bestEpoch,
            bestId := (iterSt runEpoch es v0 e).bestId,
            bestV := (iterSt runEpoch es v0 e).bestV } := by
        simp [iterSt, epochStep, hlt]
      rw [hstep]
      refine ⟨h0, h1, ?_, h3, ?_⟩
      · show (iterSt runEpoch es v0 e).bestId < (iterSt runEpoch es v0 e).fresh + 1
        omega
      · intro l hl
        obtain ⟨hb1, hb2⟩ := h4 l hl
        exact ⟨Nat.lt_succ_of_lt hb1, hb2⟩

/-- C6: `train_patch` returns the best-snapshot tensor of the final loop
state — in both exit modes, since the loop's result is always the reference
trace at the stopping point — that tensor's identity is distinct from the
live patch's identity 0 (it is a detached clone, and stays distinct
throughout the run), its values are the initial values when no epoch ever
improved, and otherwise they are exactly the live patch values produced at
the recorded best epoch. -/
theorem returns_best_snapshot (runEpoch : ℕ → Patch → Patch × ℚ)
    (es epochs : ℕ) (v0 : Patch) (s : LoopSt) (k : ℕ)
    (h : trainLoop runEpoch es epochs 0 (initSt v0) = (s, k)) :
    train_patch runEpoch epochs es v0 = (s.bestId, s.bestV) ∧
    s.liveId = 0 ∧ 1 ≤ s.bestId ∧
    (s.bestLoss = none → s.bestV = v0) ∧
    (∀ l, s.bestLoss = some l →
       runEpoch s.bestEpoch (iterSt runEpoch es v0 s.bestEpoch).liveV =
         (s.bestV, l)) ∧
    (∀ e, (iterSt runEpoch es v0 e).liveId = 0 ∧
       1 ≤ (iterSt runEpoch es v0 e).bestId) := by
  have heq : trainLoop runEpoch es epochs 0 (initSt v0) =
      (iterSt runEpoch es v0 (stopCount runEpoch es v0 epochs),
       stopCount runEpoch es v0 epochs) := by
    rw [show initSt v0 = iterSt runEpoch es v0 0 from rfl,
      trainLoop_eq runEpoch es v0 epochs 0,
      ← List.range_eq_range' epochs]
    cases hf : (List.range epochs).find? (trigger runEpoch es v0) with
    | some j => rw [stopCount_eq_some runEpoch es v0 epochs j hf]
    | none => rw [stopCount_eq_none runEpoch es v0 epochs hf]; simp
  have hs : s = iterSt runEpoch es v0 (stopCount runEpoch es v0 epochs) := by
    rw [h] at heq
    exact (Prod.mk.injEq _ _ _ _ ▸ heq).1
  have hinv := iterSt_inv runEpoch es v0 (stopCount runEpoch es v0 epochs)
  refine ⟨?_, ?_, ?_, ?_, ?_, ?_⟩
  · unfold train_patch
    rw [h]
  · rw [hs]; exact hinv.1
  · rw [hs]; exact hinv.2.1
  · rw [hs]; intro hn; exact (hinv.2.2.2.1 hn).1
  · rw [hs]; intro l hl; exact (hinv.2.2.2.2 l hl).2
  · intro e
    exact ⟨(iterSt_inv runEpoch es v0 e).1, (iterSt_inv runEpoch es v0 e).2.1⟩

/-- Concrete instance of `returns_best_snapshot` on the example run: the
returned tensor is the final best snapshot, whose identity differs from the
live patch's identity 0. -/
theorem returns_best_snapshot_witness :
    train_patch exRun 20 5 [0] =
      ((trainLoop exRun 5 20 0 (initSt [0])).1.bestId,
       (trainLoop exRun 5 20 0 (initSt [0])).1.bestV) ∧
    (trainLoop exRun 5 20 0 (initSt [0])).1.liveId = 0 ∧
    1 ≤ (trainLoop exRun 5 20 0 (initSt [0])).1.bestId :=
  have h := returns_best_snapshot exRun 5 20 [0]
    (trainLoop exRun 5 20 0 (initSt [0])).1
    (trainLoop exRun 5 20 0 (initSt [0])).2 rfl
  ⟨h.1, h.2.1, h.2.2.1⟩

/-- C10: whenever the early-stopping test fires at the end of an epoch, that
epoch necessarily took the non-improving branch (an improving epoch resets
the distance to 0), so the live patch values were just overwritten with the
best snapshot's values — hence on an early-stopping exit the live patch
values equal the returned best snapshot's values. -/
theorem early_stop_rollback (runEpoch : ℕ → Patch → Patch × ℚ) (es : ℕ)
    (v0 : Patch) :
    (∀ e, trigger runEpoch es v0 e = true →
       (iterSt runEpoch es v0 (e + 1)).liveV =
         (iterSt runEpoch es v0 (e + 1)).bestV) ∧
    (∀ epochs j, (List.range epochs).find? (trigger runEpoch es v0) = some j →
       trainLoop runEpoch es epochs 0 (initSt v0) =
         (iterSt runEpoch es v0 (j + 1), j + 1) ∧
       (iterSt runEpoch es v0 (j + 1)).liveV =
         (iterSt runEpoch es v0 (j + 1)).bestV) := by
  have main : ∀ e, trigger runEpoch es v0 e = true →
      (iterSt runEpoch es v0 (e + 1)).liveV =
        (iterSt runEpoch es v0 (e + 1)).bestV := by
    intro e htrig
    have ht2 : e - (iterSt runEpoch es v0 (e + 1)).bestEpoch > es := by
      have hdef : trigger runEpoch es v0 e =
          decide (e - (iterSt runEpoch es v0 (e + 1)).bestEpoch > es) := rfl
      rw [hdef] at htrig
      exact of_decide_eq_true htrig
    by_cases hlt : ltBest (runEpoch e (iterSt runEpoch es v0 e).liveV).2
        (iterSt runEpoch es v0 e).bestLoss = true
    · exfalso
      have hbe : (iterSt runEpoch es v0 (e + 1)).bestEpoch = e := by
        simp [iterSt, epochStep, hlt]
      omega
    · have h1 : (iterSt runEpoch es v0 (e + 1)).liveV =
          (iterSt runEpoch es v0 e).bestV := by
        simp [iterSt, epochStep, hlt]
      have h2 : (iterSt runEpoch es v0 (e + 1)).bestV =
          (iterSt runEpoch es v0 e).bestV := by
        simp [iterSt, epochStep, hlt]
      rw [h1, h2]
  refine ⟨main, ?_⟩
  intro epochs j hf
  have htrig := List.find?_some hf
  have hjlt : j < epochs := List.mem_range.mp (List.mem_of_find?_eq_some hf)
  refine ⟨?_, main j htrig⟩
  rw [show initSt v0 = iterSt runEpoch es v0 0 from rfl,
    trainLoop_eq runEpoch es v0 epochs 0]
  rw [← List.range_eq_range' epochs, hf]

/-- Concrete instance of `early_stop_rollback`: the example run's test fires
at epoch 9, and the live values equal the snapshot values afterwards. -/
theorem early_stop_rollback_witness :
    (iterSt exRun 5 [0] 10).liveV = (iterSt exRun 5 [0] 10).bestV :=
  (early_stop_rollback exRun 5 [0]).1 9 (by decide)

end AdvPatch
